import Mathlib

/-!
Verification of the fetch–extract–aggregate pipeline of `robot.py`
(PriceRobot).  The Python source is shallowly embedded below: pure
functions become Lean functions, the regex patterns of the price
extractor are modelled as explicit character-list matchers with
Python's leftmost-search semantics, floating point amounts are
modelled as rationals (all quantities relevant to the claims are
exact in binary floating point or only compared for sign), and
fallible code returns `Except`.
-/

namespace PriceRobot

/-! ### Currencies and patterns (robot.py lines 25–26)

`patterns = {"toman": [r"([\d,]+)\s?تومان"], "rial": [r"([\d,]+)\s?ریال"],
             "dollar": [r"\$([\d,]+)"], "dirham": [r"([\d,]+)\s?درهم"]}`
`rates = {"rial": 0.1, "dollar": 55_000, "dirham": 15_000, "toman": 1}`

Python dicts iterate in insertion order, so the extractor tries the
currencies in the order toman, rial, dollar, dirham. -/

inductive Currency
  | toman
  | rial
  | dollar
  | dirham
deriving DecidableEq

/-- The fixed conversion table `rates` (reference currency: toman). -/
def rate : Currency → ℚ
  | .rial => 1 / 10
  | .dollar => 55000
  | .dirham => 15000
  | .toman => 1

/-- Characters of the toman unit token `تومان`. -/
def tomanUnit : List Char := ['ت', 'و', 'م', 'ا', 'ن']

/-- Characters of the rial unit token `ریال`. -/
def rialUnit : List Char := ['ر', 'ی', 'ا', 'ل']

/-- Characters of the dirham unit token `درهم`. -/
def dirhamUnit : List Char := ['د', 'ر', 'ه', 'م']

/-- The two regex shapes occurring in `patterns`: `([\d,]+)\s?<unit>`
and `\$([\d,]+)`. -/
inductive Pat
  | numUnit (unit : List Char)
  | dollarNum
deriving DecidableEq

/-- The pattern list attached to each currency in the `patterns` dict. -/
def patsOf : Currency → List Pat
  | .toman => [.numUnit tomanUnit]
  | .rial => [.numUnit rialUnit]
  | .dollar => [.dollarNum]
  | .dirham => [.numUnit dirhamUnit]

/-- Key iteration order of the `patterns` dict (Python insertion order). -/
def patternOrder : List Currency := [.toman, .rial, .dollar, .dirham]

/-- Index of a currency in `patternOrder` (declaration order). -/
def declIndex : Currency → Nat
  | .toman => 0
  | .rial => 1
  | .dollar => 2
  | .dirham => 3

/-- A character matched by the class `[\d,]`: an ASCII decimal digit or a
comma.  (The input has already been digit-translated, see
`translateDigit`.) -/
def isNumChar (c : Char) : Bool := c.isDigit || c == ','

/-- A character matched by `\s` (the whitespace characters Python's `re`
recognises in the ASCII range). -/
def isSpaceChar (c : Char) : Bool :=
  c == ' ' || c == '\t' || c == '\n' || c == '\r' || c == '\x0b' || c == '\x0c'

/-- `startsWithL pat l` tests whether `pat` is an initial segment of `l`. -/
def startsWithL : List Char → List Char → Bool
  | [], _ => true
  | _ :: _, [] => false
  | a :: as, b :: bs => a == b && startsWithL as bs

/-- The digit translation table of robot.py line 24:
`text.translate(str.maketrans("۰۱۲۳۴۵۶۷۸۹٠١٢٣٤٥٦٧٨٩", "01234567890123456789"))`
maps Persian and Arabic-Indic digits to ASCII digits and leaves every
other character unchanged. -/
def translateDigit (c : Char) : Char :=
  if c = '۰' then '0' else if c = '۱' then '1' else if c = '۲' then '2'
  else if c = '۳' then '3' else if c = '۴' then '4' else if c = '۵' then '5'
  else if c = '۶' then '6' else if c = '۷' then '7' else if c = '۸' then '8'
  else if c = '۹' then '9'
  else if c = '٠' then '0' else if c = '١' then '1' else if c = '٢' then '2'
  else if c = '٣' then '3' else if c = '٤' then '4' else if c = '٥' then '5'
  else if c = '٦' then '6' else if c = '٧' then '7' else if c = '٨' then '8'
  else if c = '٩' then '9' else c

/-- One anchored match attempt of `([\d,]+)\s?unit` at the head of `cs`,
returning the first capturing group on success.

The `+` is greedy, so the group is the maximal run of `[\d,]` characters
at the current position; backtracking can never shorten it, because
after a shorter group the next character is a digit or comma, which
matches neither `\s` nor the first (non-digit, non-comma) character of a
unit token.  `\s?` tries one whitespace character, else the unit must
follow directly. -/
def matchNumAt (unit : List Char) (cs : List Char) : Option (List Char) :=
  let grp := cs.takeWhile isNumChar
  if grp.isEmpty then none
  else
    let rest := cs.drop grp.length
    if startsWithL unit rest then some grp
    else
      match rest with
      | [] => none
      | c :: rest2 => if isSpaceChar c && startsWithL unit rest2 then some grp else none

/-- One anchored match attempt of `\$([\d,]+)` at the head of `cs`. -/
def matchDollarAt (cs : List Char) : Option (List Char) :=
  match cs with
  | '$' :: rest =>
    let grp := rest.takeWhile isNumChar
    if grp.isEmpty then none else some grp
  | _ => none

/-- One anchored match attempt of a pattern at the head of `cs`. -/
def matchPatAt : Pat → List Char → Option (List Char)
  | .numUnit unit, cs => matchNumAt unit cs
  | .dollarNum, cs => matchDollarAt cs

/-- `re.search`: try the pattern at each position of the text from left to
right and return the first successful match's group. -/
def reSearch (p : Pat) : List Char → Option (List Char)
  | [] => none
  | c :: cs =>
    match matchPatAt p (c :: cs) with
    | some g => some g
    | none => reSearch p cs

/-- The inner loop `for pat in pats` of `PriceExtractor.extract`. -/
def tryPats (cs : List Char) : List Pat → Option (List Char)
  | [] => none
  | p :: ps =>
    match reSearch p cs with
    | some g => some g
    | none => tryPats cs ps

/-- `m.group(1).replace(",", "")`. -/
def stripKommas (g : List Char) : List Char := g.filter (fun c => c ≠ ',')

/-- Numeric value of an ASCII digit character. -/
def digitVal (c : Char) : Nat := c.toNat - '0'.toNat

/-- Decimal value of a list of ASCII digit characters. -/
def natVal (ds : List Char) : Nat := ds.foldl (fun a c => 10 * a + digitVal c) 0

/-- Python's `float(s)` applied to the de-comma'd capturing group.  The
group matched `[\d,]+`, so after removing commas only decimal digits
remain; `float` then succeeds exactly when the string is nonempty, and
`float("")` raises `ValueError` (modelled as `.error ()`).  All amounts
appearing here are nonnegative integers, which are exact in floating
point, so the value is modelled as a rational. -/
def pyFloat (ds : List Char) : Except Unit ℚ :=
  if ds.isEmpty then .error () else .ok ((natVal ds : ℕ) : ℚ)

/-- The dictionary returned by `PriceExtractor.extract` on success:
`{"original": num, "currency": curr, "toman": num * rates[curr]}`. -/
structure PriceReading where
  original : ℚ
  currency : Currency
  toman : ℚ
deriving DecidableEq

/-- The outer loop `for curr, pats in patterns.items()` of
`PriceExtractor.extract`, over the given currency order.  An uncaught
`ValueError` from `float` is `.error ()`. -/
def extractList : List Currency → List Char → Except Unit (Option PriceReading)
  | [], _ => .ok none
  | c :: rest, cs =>
    match tryPats cs (patsOf c) with
    | some g =>
      match pyFloat (stripKommas g) with
      | .ok v => .ok (some ⟨v, c, v * rate c⟩)
      | .error e => .error e
    | none => extractList rest cs

/-- `PriceExtractor.extract` (robot.py lines 22–33): translate digits,
then try each currency's patterns in dict order; on the first match
parse the group and return the reading, otherwise return `None`. -/
def extract (text : String) : Except Unit (Option PriceReading) :=
  extractList patternOrder (text.data.map translateDigit)

/-- Whether some pattern of currency `c` matches anywhere in `text`
(after digit translation). -/
def currencyMatches (c : Currency) (text : String) : Bool :=
  (tryPats (text.data.map translateDigit) (patsOf c)).isSome

/-- The first currency (in `patternOrder`) one of whose patterns matches,
together with the capturing group — the match `extract` acts on. -/
def firstMatchList : List Currency → List Char → Option (Currency × List Char)
  | [], _ => none
  | c :: rest, cs =>
    match tryPats cs (patsOf c) with
    | some g => some (c, g)
    | none => firstMatchList rest cs

/-- `firstMatchList` over the full pattern order of `extract`. -/
def firstMatch (text : String) : Option (Currency × List Char) :=
  firstMatchList patternOrder (text.data.map translateDigit)

/-! ### Products and the listing parser (robot.py lines 101–119) -/

/-- The product record built in `WebRobot._fetch_one` (robot.py lines
111–115). -/
structure Product where
  name : String
  price : ℚ
  original_currency : Currency
  website : String
  country : String
  url : String
deriving DecidableEq

/-- `url.split("/")[2]`: the host component of the fixed source URLs. -/
def hostOf (url : String) : String := (url.splitOn "/").getD 2 ""

/-- The per-card body of the loop in `_fetch_one`: each card is
represented by its flattened text (`card.get_text(" ", strip=True)`,
which the code uses both truncated as the name and in full for price
extraction).  An uncaught exception from `extract` propagates
(`.error`); it is caught by `_fetch_one`'s `try`. -/
def parseCards (url : String) : List String → Except Unit (List Product)
  | [] => .ok []
  | card :: rest =>
    match extract card with
    | .error e => .error e
    | .ok none => parseCards url rest
    | .ok (some r) =>
      match parseCards url rest with
      | .error e => .error e
      | .ok ps =>
        .ok ({ name := card.take 100, price := r.toman, original_currency := r.currency,
               website := hostOf url, country := "Iran", url := url } :: ps)

/-- The outcome of one `AsyncScraper.scrape` call for a URL: the page's
candidate listing cards (as flattened texts, the form `_fetch_one`
consumes after `soup.select`), or a fetch error/timeout. -/
def Oracle := String → Except Unit (List String)

/-- `WebRobot._fetch_one` (robot.py lines 101–119): fetch the page, parse
at most the first 5 cards, and on ANY exception (network failure,
timeout, or a parse error) return the empty product list.  The `term`
argument is passed but unused, as in the source. -/
def fetchOne (oracle : Oracle) (url : String) (term : String) : List Product :=
  match oracle url with
  | .error _ => []
  | .ok cards =>
    match parseCards url (cards.take 5) with
    | .ok ps => ps
    | .error _ => []

/-! ### Analyzer (robot.py lines 46–56) -/

/-- The statistics fields present in `Analyzer.run`'s result when the
product list is nonempty. -/
structure AggStats where
  min : ℚ
  max : ℚ
  mean : ℚ
  median : ℚ
deriving DecidableEq

/-- The dict returned by `Analyzer.run`: `{"total": 0}` for an empty
frame (no min/max/mean/median keys at all), else all five keys. -/
structure Aggregate where
  total : Nat
  stats : Option AggStats
deriving DecidableEq

/-- Minimum of a nonempty list of rationals (`df["price"].min()`); the
`[]` case is unreachable behind `analyzerRun`'s emptiness guard. -/
def listMin : List ℚ → ℚ
  | [] => 0
  | x :: xs => xs.foldl min x

/-- Maximum of a nonempty list of rationals (`df["price"].max()`). -/
def listMax : List ℚ → ℚ
  | [] => 0
  | x :: xs => xs.foldl max x

/-- `df["price"].mean()`. -/
def meanQ (l : List ℚ) : ℚ := l.sum / (l.length : ℚ)

/-- Insert into a sorted list (ascending). -/
def insertSorted (x : ℚ) : List ℚ → List ℚ
  | [] => [x]
  | y :: ys => if x ≤ y then x :: y :: ys else y :: insertSorted x ys

/-- Insertion sort, ascending. -/
def sortQ (l : List ℚ) : List ℚ := l.foldr insertSorted []

/-- `df["price"].median()`: sort; middle element for odd length, average
of the two middle elements for even length. -/
def medianQ (l : List ℚ) : ℚ :=
  let s := sortQ l
  let n := l.length
  if n % 2 = 1 then s.getD (n / 2) 0
  else (s.getD (n / 2 - 1) 0 + s.getD (n / 2) 0) / 2

/-- `Analyzer.run` (robot.py lines 47–56).  In this embedding every
product's price is numeric (a rational), so `pd.to_numeric` and
`dropna` leave the column unchanged and `len(df)` is the product
count. -/
def analyzerRun (products : List Product) : Aggregate :=
  if products.isEmpty then ⟨0, none⟩
  else
    let ps := products.map Product.price
    ⟨ps.length, some ⟨listMin ps, listMax ps, meanQ ps, medianQ ps⟩⟩

/-! ### Search orchestration (robot.py lines 80–99) -/

/-- The per-term result dict appended to `all_results`
(`{"search_term": term, "products": products, "analysis": analysis}`). -/
structure TermResult where
  search_term : String
  products : List Product
  analysis : Aggregate
deriving DecidableEq

/-- The report dict: `{"summary": {"total": ...}, "results": all_results}`. -/
structure Report where
  summaryTotal : Nat
  results : List TermResult
deriving DecidableEq

/-- Python's `term.replace(" ", sub)` for the single-character pattern
`" "`: substitute `sub` for every space character. -/
def replaceSpaces (sub : String) (term : String) : String :=
  String.mk ((term.data.map (fun c => if c = ' ' then sub.data else [c])).flatten)

/-- The three per-site query URLs built for a term (robot.py lines
85–89). -/
def urlsFor (term : String) : List String :=
  [ "https://torob.ir/search/?query=" ++ replaceSpaces "%20" term,
    "https://divar.ir/s/tehran?q=" ++ replaceSpaces "%20" term,
    "https://www.amazon.com/s?k=" ++ replaceSpaces "+" term ]

/-- The per-term body of `WebRobot.search`: fan out `_fetch_one` over the
three URLs (`asyncio.gather` returns the per-task results in task
order, regardless of completion order), concatenate the product lists,
and aggregate. -/
def termSearch (oracle : Oracle) (term : String) : TermResult :=
  let results := (urlsFor term).map (fun url => fetchOne oracle url term)
  let products := results.flatten
  ⟨term, products, analyzerRun products⟩

/-- `WebRobot.search` (robot.py lines 80–99): terms sequentially, sources
concurrently within a term; the report's summary total is the sum of
the per-term product counts. -/
def search (oracle : Oracle) (terms : List String) : Report :=
  let all_results := terms.map (termSearch oracle)
  ⟨(all_results.map (fun r => r.products.length)).sum, all_results⟩

/-! ### Task registry and background runner (robot.py lines 123–253) -/

/-- One value of `results_store`: `{"status": "processing"}`,
`{"excel_path": ..., "status": "done"}`, or
`{"status": "failed", "reason": ...}`. -/
structure StoreEntry where
  status : String
  excel_path : Option String := none
  reason : Option String := none
deriving DecidableEq

/-- The module-level dict `results_store`. -/
def Store := String → Option StoreEntry

/-- The store at process start (empty dict). -/
def emptyStore : Store := fun _ => none

/-- `results_store[task_id] = entry` (dict insertion overwrites). -/
def storeInsert (s : Store) (k : String) (v : StoreEntry) : Store :=
  fun q => if q = k then some v else s q

/-- Python's `int()` on a rational: truncation toward zero. -/
def pyInt (t : ℚ) : ℤ := if 0 ≤ t then ⌊t⌋ else -⌊-t⌋

/-- `task_id = str(int(time.time()))` (robot.py line 231): the whole
submission second rendered as a string. -/
def taskIdOf (t : ℚ) : String := toString (pyInt t)

/-- Term preprocessing in the POST branch of `index` (robot.py line 230):
split on newlines, strip, drop blanks, cap at 10. -/
def parseTerms (raw : String) : List String :=
  (((raw.splitOn "\n").map String.trim).filter (fun t => t ≠ "")).take 10

/-- The submission path of `index` (robot.py lines 230–235) for a
non-blank form: allocate the id from the submission time `t`, insert a
`processing` entry, and hand `(terms, task_id)` to the background
thread; the redirect returns immediately. -/
def submit (store : Store) (t : ℚ) (raw : String) : Store × String × List String :=
  let terms := parseTerms raw
  let task_id := taskIdOf t
  (storeInsert store task_id ⟨"processing", none, none⟩, task_id, terms)

/-- `run_in_thread` (robot.py lines 128–135): run the pipeline and store
a `done` entry with the spreadsheet path, or a `failed` entry on an
uncaught exception.  The spreadsheet export is an out-of-scope external
collaborator (spec §6); its artifact path is abstracted as the
`excelPath` parameter, and in this embedding the pipeline body is
total, so the success branch runs. -/
def runInThread (oracle : Oracle) (store : Store) (terms : List String)
    (task_id : String) (excelPath : String) : Store :=
  let _report := search oracle terms
  storeInsert store task_id ⟨"done", some excelPath, none⟩

/-- The JSON body (and implied HTTP code) returned by `api_status`. -/
inductive StatusResponse
  | notFound
  | found (status : String) (report : StoreEntry)
deriving DecidableEq

/-- `api_status` (robot.py lines 249–253): 404 `{"status": "not_found"}`
for an unknown id; otherwise HTTP 200 with the literal top-level status
string `"done"` and the registry entry under the `report` key,
regardless of the entry's own status. -/
def api_status (store : Store) (task_id : String) : StatusResponse :=
  match store task_id with
  | none => .notFound
  | some entry => .found "done" entry

/-! ### Auxiliary definitions for the proofs -/

/-- Whether `([\d,]+)\s?unit` can finish right after the captured group:
the unit token follows directly, or after exactly one whitespace
character. -/
def unitAfter (unit : List Char) (sfx : List Char) : Bool :=
  startsWithL unit sfx ||
    match sfx with
    | [] => false
    | c :: rest => isSpaceChar c && startsWithL unit rest

/-- Decimal digit characters of `n`, via the fuel-based core printer with
its canonical fuel. -/
def digitsOf (n : Nat) : List Char := Nat.toDigitsCore 10 (n + 1) n []

/-- Decimal value of a digit-character string (left fold). -/
def decodeDigits (l : List Char) : Nat :=
  l.foldl (fun a c => 10 * a + (c.toNat - '0'.toNat)) 0

/-- A fetch oracle where the second source site (divar) fails for the
term `"x"` and the other sites return pages with no listing cards. -/
def c4Oracle : Oracle := fun url =>
  if url = "https://divar.ir/s/tehran?q=x" then .error () else .ok []

/-- A fetch oracle where every page has a single listing card priced at
five dollars. -/
def c9Oracle : Oracle := fun _ => .ok ["$5 x"]

/-- The first product the pipeline builds for term `"x"` under
`c9Oracle`. -/
def c9Product : Product :=
  (termSearch c9Oracle "x").products.headD ⟨"", 0, .toman, "", "", ""⟩

/-- The reading `extract` returns on `"$5 100 ریال"`: the rial pattern is
declared before the dollar pattern, so rial wins although the dollar
marker occurs first in the text. -/
def c8Reading : PriceReading :=
  ⟨((natVal ['1', '0', '0'] : ℕ) : ℚ), .rial, ((natVal ['1', '0', '0'] : ℕ) : ℚ) * rate .rial⟩

/-- The reading `extract` returns on `"$5"`. -/
def c10Reading : PriceReading :=
  ⟨((natVal ['5'] : ℕ) : ℚ), .dollar, ((natVal ['5'] : ℕ) : ℚ) * rate .dollar⟩

/-! ## Theorems -/

/-! ### C5: report shape -/

theorem termSearch_term (oracle : Oracle) (term : String) :
    (termSearch oracle term).search_term = term := rfl

/-- C5: for every batch of N terms the report has exactly N per-term
results, in input order (the embedding of `asyncio.gather` returns
per-source results in task order, independent of completion order), and
the report's summary total is the sum of the per-term product counts. -/
theorem c5_report_shape (oracle : Oracle) (terms : List String) :
    (search oracle terms).results.map TermResult.search_term = terms ∧
    (search oracle terms).results.length = terms.length ∧
    (search oracle terms).summaryTotal
      = ((search oracle terms).results.map (fun r => r.products.length)).sum := by
  refine ⟨?_, ?_, rfl⟩
  · show (terms.map (termSearch oracle)).map TermResult.search_term = terms
    rw [List.map_map]
    exact List.map_id'' (fun t => rfl) terms
  · show (terms.map (termSearch oracle)).length = terms.length
    exact List.length_map terms (termSearch oracle)

/-! ### C4: per-source failure tolerance -/

/-- C4: if the fetch for one of a term's three source sites fails while
the others succeed, the failing source contributes the empty product
list, the term's products are exactly the concatenation of the
per-source lists (hence only products of the successful sources), and
the background runner still finishes the batch with a `done` entry. -/
theorem c4_per_source_failure (oracle : Oracle) (term : String) (i : Nat) (hi : i < 3)
    (hfail : oracle ((urlsFor term).getD i "") = .error ())
    (hok : ∀ j, j < 3 → j ≠ i → ((oracle ((urlsFor term).getD j "")).isOk : Bool) = true) :
    fetchOne oracle ((urlsFor term).getD i "") term = [] ∧
    (termSearch oracle term).products
      = ((urlsFor term).map (fun url => fetchOne oracle url term)).flatten ∧
    ∀ store task_id excelPath,
      runInThread oracle store [term] task_id excelPath task_id
        = some ⟨"done", some excelPath, none⟩ := by
  refine ⟨?_, rfl, ?_⟩
  · unfold fetchOne
    rw [hfail]
  · intro store task_id excelPath
    unfold runInThread storeInsert
    simp

theorem c4_witness :
    fetchOne c4Oracle ((urlsFor "x").getD 1 "") "x" = [] ∧
    (termSearch c4Oracle "x").products
      = ((urlsFor "x").map (fun url => fetchOne c4Oracle url "x")).flatten ∧
    ∀ store task_id excelPath,
      runInThread c4Oracle store ["x"] task_id excelPath task_id
        = some ⟨"done", some excelPath, none⟩ :=
  c4_per_source_failure c4Oracle "x" 1 (by decide) rfl (by decide)

/-! ### C1: the status endpoint -/

/-- C1 evidence: `api_status` answers `not_found` for an id that was
never submitted, but for a submitted task it returns the literal
top-level status string `"done"` even while the registry entry still
says `"processing"` — the caller polling the top-level status field (as
the repository's own waiting-page script does) cannot distinguish a
running task from a finished one. -/
theorem c1_status_endpoint :
    (∀ tid, api_status emptyStore tid = .notFound) ∧
    api_status (submit emptyStore 100 "phone").1 "100"
      = .found "done" ⟨"processing", none, none⟩ ∧
    ("processing" : String) ≠ "done" := by
  refine ⟨fun tid => rfl, ?_, by decide⟩
  show api_status (storeInsert emptyStore (taskIdOf 100) ⟨"processing", none, none⟩) "100" = _
  have h : taskIdOf 100 = "100" := by decide
  rw [h]
  rfl

/-! ### C6: the analyzer -/

/-- C6: `Analyzer.run` on an empty product list yields count 0 with no
min/max/mean/median keys at all (absent, not numeric zero, and total
by construction — no crash), and on prices `[10, 20, 30]` yields
count 3, min 10, max 30, mean 20, median 20. -/
theorem c6_analyzer :
    analyzerRun [] = ⟨0, none⟩ ∧
    analyzerRun
        [⟨"a", 10, .toman, "w", "Iran", "u"⟩,
         ⟨"b", 20, .toman, "w", "Iran", "u"⟩,
         ⟨"c", 30, .toman, "w", "Iran", "u"⟩]
      = ⟨3, some ⟨10, 30, 20, 20⟩⟩ := by
  constructor
  · rfl
  · have h1 : listMin [10, 20, 30] = 10 := by
      show List.foldl min 10 [20, 30] = 10
      rw [List.foldl_cons, List.foldl_cons, List.foldl_nil,
        min_eq_left (by norm_num), min_eq_left (by norm_num)]
    have h2 : listMax [10, 20, 30] = 30 := by
      show List.foldl max 10 [20, 30] = 30
      rw [List.foldl_cons, List.foldl_cons, List.foldl_nil, max_eq_right (by norm_num)]
    have h3 : meanQ [10, 20, 30] = 20 := by
      unfold meanQ
      norm_num
    have h4 : medianQ [10, 20, 30] = 20 := by
      norm_num [medianQ, sortQ, insertSorted]
    show (⟨3, some ⟨listMin [10, 20, 30], listMax [10, 20, 30], meanQ [10, 20, 30],
      medianQ [10, 20, 30]⟩⟩ : Aggregate) = _
    rw [h1, h2, h3, h4]

/-! ### C9: origin country constant -/

theorem parseCards_country (url : String) (cards : List String) (ps : List Product)
    (h : parseCards url cards = .ok ps) : ∀ p ∈ ps, p.country = "Iran" := by
  induction cards generalizing ps with
  | nil =>
    unfold parseCards at h
    injection h with h
    subst h
    intro p hp
    cases hp
  | cons card rest ih =>
    unfold parseCards at h
    cases hx : extract card with
    | error e => rw [hx] at h; cases h
    | ok o =>
      rw [hx] at h
      cases o with
      | none => exact ih ps h
      | some r =>
        cases hp : parseCards url rest with
        | error e => rw [hp] at h; cases h
        | ok qs =>
          rw [hp] at h
          injection h with h
          subst h
          intro p hmem
          rcases List.mem_cons.mp hmem with hEq | hmem2
          · rw [hEq]
          · exact ih qs hp p hmem2

theorem fetchOne_country (oracle : Oracle) (url : String) (term : String) :
    ∀ p ∈ fetchOne oracle url term, p.country = "Iran" := by
  intro p hp
  unfold fetchOne at hp
  cases ho : oracle url with
  | error e =>
    rw [ho] at hp
    exact absurd hp (List.not_mem_nil p)
  | ok cards =>
    rw [ho] at hp
    have hp2 : p ∈ (match parseCards url (cards.take 5) with
      | .ok ps => ps
      | .error _ => []) := hp
    cases hpc : parseCards url (cards.take 5) with
    | error e =>
      rw [hpc] at hp2
      exact absurd hp2 (List.not_mem_nil p)
    | ok ps =>
      rw [hpc] at hp2
      exact parseCards_country url (cards.take 5) ps hpc p hp2

/-- C9: every product record the listing parser constructs carries the
constant `country := "Iran"`, whatever the source site — including the
amazon.com source. -/
theorem c9_origin_country (oracle : Oracle) (terms : List String) (tr : TermResult)
    (p : Product) (htr : tr ∈ (search oracle terms).results) (hp : p ∈ tr.products) :
    p.country = "Iran" := by
  have hres : (search oracle terms).results = terms.map (termSearch oracle) := rfl
  rw [hres] at htr
  rcases List.mem_map.mp htr with ⟨term, _, hEq⟩
  subst hEq
  have hp2 : p ∈ ((urlsFor term).map (fun url => fetchOne oracle url term)).flatten := hp
  rcases List.mem_flatten.mp hp2 with ⟨l, hl, hpl⟩
  rcases List.mem_map.mp hl with ⟨url, _, hEq2⟩
  subst hEq2
  exact fetchOne_country oracle url term p hpl

theorem c9_witness : c9Product.country = "Iran" :=
  c9_origin_country c9Oracle ["x"] (termSearch c9Oracle "x") c9Product
    (List.mem_cons_self _ _) (List.mem_cons_self _ _)

/-! ### Regex-matcher lemmas -/

theorem takeWhile_all (p : Char → Bool) (l : List Char) (h : ∀ c ∈ l, p c = true) :
    l.takeWhile p = l := by
  induction l with
  | nil => rfl
  | cons a l ih =>
    rw [List.takeWhile_cons, if_pos (h a (List.mem_cons_self a l)),
      ih (fun c hc => h c (List.mem_cons_of_mem a hc))]

theorem takeWhile_append_nonum (p : Char → Bool) (ds sfx : List Char)
    (hds : ∀ c ∈ ds, p c = true) (hsfx : ∀ c ∈ sfx, p c = false) :
    (ds ++ sfx).takeWhile p = ds := by
  induction ds with
  | nil =>
    cases sfx with
    | nil => rfl
    | cons s ss =>
      rw [List.nil_append, List.takeWhile_cons,
        if_neg (by rw [hsfx s (List.mem_cons_self s ss)]; exact Bool.false_ne_true)]
  | cons d ds ih =>
    rw [List.cons_append, List.takeWhile_cons,
      if_pos (hds d (List.mem_cons_self d ds)),
      ih (fun c hc => hds c (List.mem_cons_of_mem d hc))]

theorem startsWithL_self (u : List Char) : startsWithL u u = true := by
  induction u with
  | nil => rfl
  | cons a as ih => simp [startsWithL, ih]

theorem startsWithL_head_mem (u : Char) (ut l : List Char)
    (h : startsWithL (u :: ut) l = true) : u ∈ l := by
  cases l with
  | nil => exact absurd h (by simp [startsWithL])
  | cons b bs =>
    have hb : u = b := by
      have := (Bool.and_eq_true _ _).mp h
      exact eq_of_beq this.1
    rw [hb]
    exact List.mem_cons_self b bs

theorem matchNumAt_split (unit ds sfx : List Char) (hne : ds ≠ [])
    (hds : ∀ c ∈ ds, isNumChar c = true) (hsfx : ∀ c ∈ sfx, isNumChar c = false) :
    matchNumAt unit (ds ++ sfx)
      = if unitAfter unit sfx = true then some ds else none := by
  have hgrp : (ds ++ sfx).takeWhile isNumChar = ds := takeWhile_append_nonum _ ds sfx hds hsfx
  have hempty : ds.isEmpty = false := by
    cases ds with
    | nil => exact absurd rfl hne
    | cons d ds => rfl
  unfold matchNumAt
  dsimp only
  rw [hgrp, hempty, List.drop_left ds sfx]
  simp only [Bool.false_eq_true, if_false]
  unfold unitAfter
  cases hsw : startsWithL unit sfx with
  | true => simp [hsw]
  | false =>
    simp only [hsw, Bool.false_eq_true, if_false, Bool.false_or]
    cases sfx with
    | nil => simp
    | cons c rest2 =>
      cases hb : isSpaceChar c && startsWithL unit rest2 with
      | true => simp [hb]
      | false => simp [hb]

theorem matchNumAt_headNonum (unit : List Char) (c : Char) (cs : List Char)
    (h : isNumChar c = false) : matchNumAt unit (c :: cs) = none := by
  simp [matchNumAt, List.takeWhile_cons, h]

theorem reSearch_nonum_none (unit cs : List Char) (h : ∀ c ∈ cs, isNumChar c = false) :
    reSearch (.numUnit unit) cs = none := by
  induction cs with
  | nil => rfl
  | cons c cs ih =>
    unfold reSearch
    simp only [matchPatAt]
    rw [matchNumAt_headNonum unit c cs (h c (List.mem_cons_self c cs))]
    exact ih (fun x hx => h x (List.mem_cons_of_mem c hx))

theorem reSearch_numUnit_some (unit ds sfx : List Char) (hne : ds ≠ [])
    (hds : ∀ c ∈ ds, isNumChar c = true) (hsfx : ∀ c ∈ sfx, isNumChar c = false)
    (hu : unitAfter unit sfx = true) :
    reSearch (.numUnit unit) (ds ++ sfx) = some ds := by
  cases ds with
  | nil => exact absurd rfl hne
  | cons d ds =>
    rw [List.cons_append]
    unfold reSearch
    simp only [matchPatAt]
    have hm := matchNumAt_split unit (d :: ds) sfx (by simp) hds hsfx
    rw [if_pos hu] at hm
    rw [List.cons_append] at hm
    rw [hm]

theorem reSearch_numUnit_none (unit ds sfx : List Char)
    (hds : ∀ c ∈ ds, isNumChar c = true) (hsfx : ∀ c ∈ sfx, isNumChar c = false)
    (hu : unitAfter unit sfx = false) :
    reSearch (.numUnit unit) (ds ++ sfx) = none := by
  induction ds with
  | nil => exact reSearch_nonum_none unit sfx hsfx
  | cons d ds ih =>
    rw [List.cons_append]
    unfold reSearch
    simp only [matchPatAt]
    have hm := matchNumAt_split unit (d :: ds) sfx (by simp) hds hsfx
    rw [if_neg (by rw [hu]; exact Bool.false_ne_true)] at hm
    rw [List.cons_append] at hm
    rw [hm]
    exact ih (fun c hc => hds c (List.mem_cons_of_mem d hc))

theorem matchDollarAt_headNot (c : Char) (cs : List Char) (h : c ≠ '$') :
    matchDollarAt (c :: cs) = none := by
  unfold matchDollarAt
  split
  · rename_i heq
    injection heq with h1 h2
    exact absurd h1 h
  · rfl

theorem reSearch_dollar_none (cs : List Char) (h : '$' ∉ cs) :
    reSearch .dollarNum cs = none := by
  induction cs with
  | nil => rfl
  | cons c cs ih =>
    unfold reSearch
    simp only [matchPatAt]
    rw [matchDollarAt_headNot c cs (fun hEq => h (hEq ▸ List.mem_cons_self c cs))]
    exact ih (fun hm => h (List.mem_cons_of_mem c hm))

theorem reSearch_dollar_some (ds : List Char) (hne : ds ≠ [])
    (hds : ∀ c ∈ ds, isNumChar c = true) :
    reSearch .dollarNum ('$' :: ds) = some ds := by
  unfold reSearch
  simp only [matchPatAt]
  have hm : matchDollarAt ('$' :: ds) = some ds := by
    show (let grp := ds.takeWhile isNumChar
      if grp.isEmpty = true then none else some grp) = some ds
    dsimp only
    rw [takeWhile_all isNumChar ds hds]
    have hempty : ds.isEmpty = false := by
      cases ds with
      | nil => exact absurd rfl hne
      | cons d ds => rfl
    rw [hempty]
    simp
  rw [hm]

theorem tryPats_single (cs : List Char) (p : Pat) : tryPats cs [p] = reSearch p cs := by
  cases h : reSearch p cs with
  | some g =>
    unfold tryPats
    rw [h]
  | none =>
    unfold tryPats
    rw [h]
    rfl

theorem char_ne_of_num (c d : Char) (h : isNumChar c = true) (hd : isNumChar d = false) :
    ¬ c = d := by
  intro hEq
  rw [hEq] at h
  rw [h] at hd
  cases hd

theorem translateDigit_num (c : Char) (h : isNumChar c = true) : translateDigit c = c := by
  unfold translateDigit
  rw [if_neg (char_ne_of_num c _ h (by decide)), if_neg (char_ne_of_num c _ h (by decide)),
    if_neg (char_ne_of_num c _ h (by decide)), if_neg (char_ne_of_num c _ h (by decide)),
    if_neg (char_ne_of_num c _ h (by decide)), if_neg (char_ne_of_num c _ h (by decide)),
    if_neg (char_ne_of_num c _ h (by decide)), if_neg (char_ne_of_num c _ h (by decide)),
    if_neg (char_ne_of_num c _ h (by decide)), if_neg (char_ne_of_num c _ h (by decide)),
    if_neg (char_ne_of_num c _ h (by decide)), if_neg (char_ne_of_num c _ h (by decide)),
    if_neg (char_ne_of_num c _ h (by decide)), if_neg (char_ne_of_num c _ h (by decide)),
    if_neg (char_ne_of_num c _ h (by decide)), if_neg (char_ne_of_num c _ h (by decide)),
    if_neg (char_ne_of_num c _ h (by decide)), if_neg (char_ne_of_num c _ h (by decide)),
    if_neg (char_ne_of_num c _ h (by decide)), if_neg (char_ne_of_num c _ h (by decide))]

theorem map_translate_id (l : List Char) (h : ∀ c ∈ l, isNumChar c = true) :
    l.map translateDigit = l := by
  induction l with
  | nil => rfl
  | cons a l ih =>
    rw [List.map_cons, translateDigit_num a (h a (List.mem_cons_self a l)),
      ih (fun c hc => h c (List.mem_cons_of_mem a hc))]

theorem not_mem_of_num (u : Char) (ds : List Char) (hds : ∀ c ∈ ds, isNumChar c = true)
    (hu : isNumChar u = false) : u ∉ ds :=
  fun hm => by rw [hds u hm] at hu; cases hu

theorem matchNumAt_not_mem (u : Char) (ut cs : List Char) (h : u ∉ cs) :
    matchNumAt (u :: ut) cs = none := by
  cases hgE : (cs.takeWhile isNumChar).isEmpty with
  | true => simp [matchNumAt, hgE]
  | false =>
    have hrest : u ∉ cs.drop (cs.takeWhile isNumChar).length :=
      fun hm => h (List.drop_subset _ _ hm)
    have hsw : startsWithL (u :: ut) (cs.drop (cs.takeWhile isNumChar).length) = false := by
      cases hs : startsWithL (u :: ut) (cs.drop (cs.takeWhile isNumChar).length) with
      | true => exact absurd (startsWithL_head_mem u ut _ hs) hrest
      | false => rfl
    unfold matchNumAt
    dsimp only
    rw [hgE, hsw]
    simp only [Bool.false_eq_true, if_false]
    cases hdrop : cs.drop (cs.takeWhile isNumChar).length with
    | nil => rfl
    | cons c2 rest2 =>
      rw [hdrop] at hrest
      have hu2 : u ∉ rest2 := fun hm => hrest (List.mem_cons_of_mem c2 hm)
      have hsw2 : startsWithL (u :: ut) rest2 = false := by
        cases hs : startsWithL (u :: ut) rest2 with
        | true => exact absurd (startsWithL_head_mem u ut rest2 hs) hu2
        | false => rfl
      dsimp only
      rw [hsw2]
      simp

theorem reSearch_numUnit_not_mem (u : Char) (ut cs : List Char) (h : u ∉ cs) :
    reSearch (.numUnit (u :: ut)) cs = none := by
  induction cs with
  | nil => rfl
  | cons c cs ih =>
    unfold reSearch
    simp only [matchPatAt]
    rw [matchNumAt_not_mem u ut (c :: cs) h]
    exact ih (fun hm => h (List.mem_cons_of_mem c hm))

/-! ### Extractor-level lemmas -/

theorem extractList_step_none (c : Currency) (rest : List Currency) (cs : List Char)
    (h : tryPats cs (patsOf c) = none) :
    extractList (c :: rest) cs = extractList rest cs := by
  show (match tryPats cs (patsOf c) with
    | some g =>
      match pyFloat (stripKommas g) with
      | Except.ok v => Except.ok (some (PriceReading.mk v c (v * rate c)))
      | Except.error e => Except.error e
    | none => extractList rest cs) = extractList rest cs
  rw [h]


theorem extractList_step_some (c : Currency) (rest : List Currency) (cs g : List Char)
    (h : tryPats cs (patsOf c) = some g) :
    extractList (c :: rest) cs
      = match pyFloat (stripKommas g) with
        | .ok v => .ok (some ⟨v, c, v * rate c⟩)
        | .error e => .error e := by
  show (match tryPats cs (patsOf c) with
    | some g =>
      match pyFloat (stripKommas g) with
      | Except.ok v => Except.ok (some (PriceReading.mk v c (v * rate c)))
      | Except.error e => Except.error e
    | none => extractList rest cs)
    = match pyFloat (stripKommas g) with
      | Except.ok v => Except.ok (some (PriceReading.mk v c (v * rate c)))
      | Except.error e => Except.error e
  rw [h]


theorem pyFloat_ok_of_mem (ds : List Char) (c0 : Char) (h : c0 ∈ ds) :
    pyFloat ds = .ok ((natVal ds : ℕ) : ℚ) := by
  unfold pyFloat
  rw [if_neg]
  intro hAbs
  rw [List.isEmpty_iff] at hAbs
  rw [hAbs] at h
  cases h

theorem stripKommas_digit_mem (ds : List Char) (c0 : Char) (hm : c0 ∈ ds)
    (hd : c0.isDigit = true) : c0 ∈ stripKommas ds := by
  have hne : c0 ≠ ',' := by
    intro hEq
    rw [hEq] at hd
    exact absurd hd (by decide)
  exact List.mem_filter.mpr ⟨hm, decide_eq_true hne⟩

/-! ### C7: multipliers per currency marker -/

/-- C7: for every supported currency marker, on a text that is a
`[\d,]`-run (containing at least one digit) followed by that single
marker, `extract` strips the thousands separators and returns the
parsed amount times the currency's fixed multiplier into the reference
currency — toman ×1, rial ×0.1, dollar ×55000, dirham ×15000. -/
theorem c7_multipliers (ds : List Char) (hne : ds ≠ [])
    (hnum : ds.all isNumChar = true) (hdig : ds.any Char.isDigit = true) :
    extract (String.mk (ds ++ ' ' :: tomanUnit))
      = .ok (some ⟨((natVal (stripKommas ds) : ℕ) : ℚ), .toman,
          ((natVal (stripKommas ds) : ℕ) : ℚ) * rate .toman⟩) ∧
    extract (String.mk (ds ++ ' ' :: rialUnit))
      = .ok (some ⟨((natVal (stripKommas ds) : ℕ) : ℚ), .rial,
          ((natVal (stripKommas ds) : ℕ) : ℚ) * rate .rial⟩) ∧
    extract (String.mk ('$' :: ds))
      = .ok (some ⟨((natVal (stripKommas ds) : ℕ) : ℚ), .dollar,
          ((natVal (stripKommas ds) : ℕ) : ℚ) * rate .dollar⟩) ∧
    extract (String.mk (ds ++ ' ' :: dirhamUnit))
      = .ok (some ⟨((natVal (stripKommas ds) : ℕ) : ℚ), .dirham,
          ((natVal (stripKommas ds) : ℕ) : ℚ) * rate .dirham⟩) := by
  have hds : ∀ c ∈ ds, isNumChar c = true := List.all_eq_true.mp hnum
  obtain ⟨c0, hc0m, hc0d⟩ := List.any_eq_true.mp hdig
  have hstrip : pyFloat (stripKommas ds) = .ok ((natVal (stripKommas ds) : ℕ) : ℚ) :=
    pyFloat_ok_of_mem _ c0 (stripKommas_digit_mem ds c0 hc0m hc0d)
  refine ⟨?_, ?_, ?_, ?_⟩
  · -- toman text: the toman pattern (declared first) matches at once
    show extractList patternOrder ((ds ++ ' ' :: tomanUnit).map translateDigit) = _
    rw [List.map_append, map_translate_id ds hds,
      (by decide : (' ' :: tomanUnit).map translateDigit = ' ' :: tomanUnit)]
    have h1 : tryPats (ds ++ ' ' :: tomanUnit) (patsOf .toman) = some ds := by
      show tryPats _ [Pat.numUnit tomanUnit] = some ds
      rw [tryPats_single]
      exact reSearch_numUnit_some tomanUnit ds (' ' :: tomanUnit) hne hds
        (by decide) (by decide)
    rw [show patternOrder = Currency.toman :: [Currency.rial, .dollar, .dirham] from rfl,
      extractList_step_some _ _ _ ds h1, hstrip]
  · -- rial text: toman fails, rial (declared second) matches
    show extractList patternOrder ((ds ++ ' ' :: rialUnit).map translateDigit) = _
    rw [List.map_append, map_translate_id ds hds,
      (by decide : (' ' :: rialUnit).map translateDigit = ' ' :: rialUnit)]
    have h1 : tryPats (ds ++ ' ' :: rialUnit) (patsOf .toman) = none := by
      show tryPats _ [Pat.numUnit tomanUnit] = none
      rw [tryPats_single]
      exact reSearch_numUnit_none tomanUnit ds (' ' :: rialUnit) hds (by decide) (by decide)
    have h2 : tryPats (ds ++ ' ' :: rialUnit) (patsOf .rial) = some ds := by
      show tryPats _ [Pat.numUnit rialUnit] = some ds
      rw [tryPats_single]
      exact reSearch_numUnit_some rialUnit ds (' ' :: rialUnit) hne hds
        (by decide) (by decide)
    rw [show patternOrder = Currency.toman :: [Currency.rial, .dollar, .dirham] from rfl,
      extractList_step_none _ _ _ h1,
      extractList_step_some _ _ _ ds h2, hstrip]
  · -- dollar text: toman and rial fail (their unit letters do not occur),
    -- the dollar pattern matches
    show extractList patternOrder (('$' :: ds).map translateDigit) = _
    rw [List.map_cons, (by decide : translateDigit '$' = '$'), map_translate_id ds hds]
    have hnt : 'ت' ∉ '$' :: ds := by
      intro hm
      rcases List.mem_cons.mp hm with hEq | hEq
      · exact absurd hEq (by decide)
      · exact not_mem_of_num 'ت' ds hds (by decide) hEq
    have hnr : 'ر' ∉ '$' :: ds := by
      intro hm
      rcases List.mem_cons.mp hm with hEq | hEq
      · exact absurd hEq (by decide)
      · exact not_mem_of_num 'ر' ds hds (by decide) hEq
    have h1 : tryPats ('$' :: ds) (patsOf .toman) = none := by
      show tryPats _ [Pat.numUnit tomanUnit] = none
      rw [tryPats_single]
      exact reSearch_numUnit_not_mem 'ت' _ _ hnt
    have h2 : tryPats ('$' :: ds) (patsOf .rial) = none := by
      show tryPats _ [Pat.numUnit rialUnit] = none
      rw [tryPats_single]
      exact reSearch_numUnit_not_mem 'ر' _ _ hnr
    have h3 : tryPats ('$' :: ds) (patsOf .dollar) = some ds := by
      show tryPats _ [Pat.dollarNum] = some ds
      rw [tryPats_single]
      exact reSearch_dollar_some ds hne hds
    rw [show patternOrder = Currency.toman :: Currency.rial :: [Currency.dollar, .dirham]
        from rfl,
      extractList_step_none _ _ _ h1, extractList_step_none _ _ _ h2,
      extractList_step_some _ _ _ ds h3, hstrip]
  · -- dirham text: toman, rial and dollar all fail, dirham matches
    show extractList patternOrder ((ds ++ ' ' :: dirhamUnit).map translateDigit) = _
    rw [List.map_append, map_translate_id ds hds,
      (by decide : (' ' :: dirhamUnit).map translateDigit = ' ' :: dirhamUnit)]
    have h1 : tryPats (ds ++ ' ' :: dirhamUnit) (patsOf .toman) = none := by
      show tryPats _ [Pat.numUnit tomanUnit] = none
      rw [tryPats_single]
      exact reSearch_numUnit_none tomanUnit ds (' ' :: dirhamUnit) hds (by decide) (by decide)
    have h2 : tryPats (ds ++ ' ' :: dirhamUnit) (patsOf .rial) = none := by
      show tryPats _ [Pat.numUnit rialUnit] = none
      rw [tryPats_single]
      exact reSearch_numUnit_none rialUnit ds (' ' :: dirhamUnit) hds (by decide) (by decide)
    have h3 : tryPats (ds ++ ' ' :: dirhamUnit) (patsOf .dollar) = none := by
      show tryPats _ [Pat.dollarNum] = none
      rw [tryPats_single]
      refine reSearch_dollar_none _ ?_
      intro hm
      rcases List.mem_append.mp hm with hEq | hEq
      · exact not_mem_of_num '$' ds hds (by decide) hEq
      · exact absurd hEq (by decide)
    have h4 : tryPats (ds ++ ' ' :: dirhamUnit) (patsOf .dirham) = some ds := by
      show tryPats _ [Pat.numUnit dirhamUnit] = some ds
      rw [tryPats_single]
      exact reSearch_numUnit_some dirhamUnit ds (' ' :: dirhamUnit) hne hds
        (by decide) (by decide)
    rw [show patternOrder
        = Currency.toman :: Currency.rial :: Currency.dollar :: [Currency.dirham] from rfl,
      extractList_step_none _ _ _ h1, extractList_step_none _ _ _ h2,
      extractList_step_none _ _ _ h3, extractList_step_some _ _ _ ds h4, hstrip]

theorem c7_witness :
    extract (String.mk ("15,000,000".data ++ ' ' :: tomanUnit))
      = .ok (some ⟨((natVal (stripKommas "15,000,000".data) : ℕ) : ℚ), .toman,
          ((natVal (stripKommas "15,000,000".data) : ℕ) : ℚ) * rate .toman⟩) ∧
    extract (String.mk ('$' :: "500".data))
      = .ok (some ⟨((natVal (stripKommas "500".data) : ℕ) : ℚ), .dollar,
          ((natVal (stripKommas "500".data) : ℕ) : ℚ) * rate .dollar⟩) ∧
    (natVal (stripKommas "15,000,000".data) = 15000000 ∧
      natVal (stripKommas "500".data) = 500) :=
  ⟨(c7_multipliers "15,000,000".data (by decide) (by decide) (by decide)).1,
   (c7_multipliers "500".data (by decide) (by decide) (by decide)).2.2.1,
   by decide, by decide⟩

/-! ### C8: declaration-order tie-break -/

/-- C8: whenever `extract` returns a reading, the winning currency is one
whose pattern matches somewhere in the text, and every currency declared
earlier in the pattern dict does not match anywhere — the tie-break is
declaration order, not match position in the text. -/
theorem c8_declaration_order (text : String) (r : PriceReading)
    (h : extract text = .ok (some r)) :
    currencyMatches r.currency text = true ∧
    ∀ c, declIndex c < declIndex r.currency → currencyMatches c text = false := by
  have hcm : ∀ c, currencyMatches c text
      = (tryPats (text.data.map translateDigit) (patsOf c)).isSome := fun c => rfl
  unfold extract at h
  rw [show patternOrder = Currency.toman :: Currency.rial :: Currency.dollar
      :: [Currency.dirham] from rfl] at h
  cases h1 : tryPats (text.data.map translateDigit) (patsOf .toman) with
  | some g =>
    rw [extractList_step_some _ _ _ g h1] at h
    cases hp : pyFloat (stripKommas g) with
    | error e => rw [hp] at h; exact Except.noConfusion h
    | ok v =>
      rw [hp] at h
      dsimp only at h
      injection h with h
      injection h with h
      subst h
      refine ⟨by rw [hcm, h1]; rfl, ?_⟩
      intro c hlt
      cases c <;> (dsimp only at hlt; exact absurd hlt (by decide))
  | none =>
    rw [extractList_step_none _ _ _ h1] at h
    cases h2 : tryPats (text.data.map translateDigit) (patsOf .rial) with
    | some g =>
      rw [extractList_step_some _ _ _ g h2] at h
      cases hp : pyFloat (stripKommas g) with
      | error e => rw [hp] at h; exact Except.noConfusion h
      | ok v =>
        rw [hp] at h
        dsimp only at h
        injection h with h
        injection h with h
        subst h
        refine ⟨by rw [hcm, h2]; rfl, ?_⟩
        intro c hlt
        cases c with
        | toman => rw [hcm, h1]; rfl
        | rial => dsimp only at hlt; exact absurd hlt (by decide)
        | dollar => dsimp only at hlt; exact absurd hlt (by decide)
        | dirham => dsimp only at hlt; exact absurd hlt (by decide)
    | none =>
      rw [extractList_step_none _ _ _ h2] at h
      cases h3 : tryPats (text.data.map translateDigit) (patsOf .dollar) with
      | some g =>
        rw [extractList_step_some _ _ _ g h3] at h
        cases hp : pyFloat (stripKommas g) with
        | error e => rw [hp] at h; exact Except.noConfusion h
        | ok v =>
          rw [hp] at h
          dsimp only at h
          injection h with h
          injection h with h
          subst h
          refine ⟨by rw [hcm, h3]; rfl, ?_⟩
          intro c hlt
          cases c with
          | toman => rw [hcm, h1]; rfl
          | rial => rw [hcm, h2]; rfl
          | dollar => dsimp only at hlt; exact absurd hlt (by decide)
          | dirham => dsimp only at hlt; exact absurd hlt (by decide)
      | none =>
        rw [extractList_step_none _ _ _ h3] at h
        cases h4 : tryPats (text.data.map translateDigit) (patsOf .dirham) with
        | some g =>
          rw [extractList_step_some _ _ _ g h4] at h
          cases hp : pyFloat (stripKommas g) with
          | error e => rw [hp] at h; exact Except.noConfusion h
          | ok v =>
            rw [hp] at h
            dsimp only at h
            injection h with h
            injection h with h
            subst h
            refine ⟨by rw [hcm, h4]; rfl, ?_⟩
            intro c hlt
            cases c with
            | toman => rw [hcm, h1]; rfl
            | rial => rw [hcm, h2]; rfl
            | dollar => rw [hcm, h3]; rfl
            | dirham => dsimp only at hlt; exact absurd hlt (by decide)
        | none =>
          rw [extractList_step_none _ _ _ h4] at h
          injection h with h
          exact Option.noConfusion h

theorem c8_witness :
    currencyMatches c8Reading.currency "$5 100 ریال" = true ∧
    ∀ c, declIndex c < declIndex c8Reading.currency →
      currencyMatches c "$5 100 ریال" = false :=
  c8_declaration_order "$5 100 ریال" c8Reading rfl

/-! ### C10: nonnegativity of extracted amounts -/

theorem extractList_reading (l : List Currency) (cs : List Char) (r : PriceReading)
    (h : extractList l cs = .ok (some r)) :
    ∃ g, r.original = ((natVal (stripKommas g) : ℕ) : ℚ) ∧
      r.toman = r.original * rate r.currency := by
  induction l with
  | nil =>
    injection h with h
    exact Option.noConfusion h
  | cons c rest ih =>
    cases h1 : tryPats cs (patsOf c) with
    | none =>
      rw [extractList_step_none _ _ _ h1] at h
      exact ih h
    | some g =>
      rw [extractList_step_some _ _ _ g h1] at h
      cases hp : pyFloat (stripKommas g) with
      | error e => rw [hp] at h; exact Except.noConfusion h
      | ok v =>
        rw [hp] at h
        dsimp only at h
        injection h with h
        injection h with h
        subst h
        refine ⟨g, ?_, rfl⟩
        unfold pyFloat at hp
        by_cases hE : (stripKommas g).isEmpty = true
        · rw [if_pos hE] at hp
          exact Except.noConfusion hp
        · rw [if_neg hE] at hp
          injection hp with hp
          exact hp.symm

theorem rate_pos : ∀ c, 0 < rate c := by
  intro c
  cases c <;> norm_num [rate]

/-- C10: every reading `extract` returns has a nonnegative original
amount and a nonnegative converted reference price: the numeric class
`[\d,]` admits no sign, and every multiplier of the rate table is
positive. -/
theorem c10_nonneg (text : String) (r : PriceReading)
    (h : extract text = .ok (some r)) :
    0 ≤ r.original ∧ 0 ≤ r.toman ∧ ∀ c, 0 < rate c := by
  obtain ⟨g, ho, ht⟩ := extractList_reading patternOrder _ r h
  refine ⟨?_, ?_, rate_pos⟩
  · rw [ho]
    exact Nat.cast_nonneg _
  · rw [ht]
    exact mul_nonneg (by rw [ho]; exact Nat.cast_nonneg _) (le_of_lt (rate_pos _))

theorem c10_witness :
    0 ≤ c10Reading.original ∧ 0 ≤ c10Reading.toman ∧ ∀ c, 0 < rate c :=
  c10_nonneg "$5" c10Reading rfl

/-! ### C2: behaviour on no-match and on unparsable groups -/

theorem extractList_ok_none_iff (l : List Currency) (cs : List Char) :
    extractList l cs = .ok none ↔ firstMatchList l cs = none := by
  induction l with
  | nil => simp [extractList, firstMatchList]
  | cons c rest ih =>
    cases ht : tryPats cs (patsOf c) with
    | none =>
      rw [extractList_step_none _ _ _ ht]
      unfold firstMatchList
      rw [ht]
      exact ih
    | some g =>
      rw [extractList_step_some _ _ _ g ht]
      unfold firstMatchList
      rw [ht]
      cases hp : pyFloat (stripKommas g) with
      | ok v => simp
      | error e => simp

theorem pyFloat_error_iff (ds : List Char) : pyFloat ds = .error () ↔ ds = [] := by
  unfold pyFloat
  cases h : ds.isEmpty with
  | true =>
    rw [if_pos rfl]
    simp [List.isEmpty_iff.mp h]
  | false =>
    simp only [h, Bool.false_eq_true, if_false]
    constructor
    · intro hAbs
      exact Except.noConfusion hAbs
    · intro hAbs
      rw [hAbs] at h
      cases h

theorem extractList_error_iff (l : List Currency) (cs : List Char) :
    extractList l cs = .error () ↔
      ∃ c g, firstMatchList l cs = some (c, g) ∧ stripKommas g = [] := by
  induction l with
  | nil => simp [extractList, firstMatchList]
  | cons c rest ih =>
    cases ht : tryPats cs (patsOf c) with
    | none =>
      rw [extractList_step_none _ _ _ ht]
      unfold firstMatchList
      rw [ht]
      exact ih
    | some g =>
      rw [extractList_step_some _ _ _ g ht]
      unfold firstMatchList
      rw [ht]
      cases hp : pyFloat (stripKommas g) with
      | ok v =>
        simp only [reduceCtorEq, false_iff, not_exists, not_and]
        intro c2 g2 hEq
        injection hEq with hEq
        injection hEq with hEq1 hEq2
        subst hEq2
        intro hstrip
        rw [(pyFloat_error_iff _).mpr hstrip] at hp
        exact Except.noConfusion hp
      | error e =>
        constructor
        · intro _
          exact ⟨c, g, rfl, (pyFloat_error_iff _).mp hp⟩
        · intro _
          rfl

theorem firstMatchList_none_iff (l : List Currency) (cs : List Char) :
    firstMatchList l cs = none ↔ ∀ c ∈ l, tryPats cs (patsOf c) = none := by
  induction l with
  | nil => simp [firstMatchList]
  | cons c rest ih =>
    unfold firstMatchList
    cases ht : tryPats cs (patsOf c) with
    | some g =>
      simp only [reduceCtorEq, false_iff, not_forall]
      refine ⟨c, List.mem_cons_self c rest, ?_⟩
      intro hAbs
      rw [hAbs] at ht
      exact Option.noConfusion ht
    | none =>
      rw [ih]
      constructor
      · intro h c2 hm
        rcases List.mem_cons.mp hm with hEq | hm2
        · rw [hEq]; exact ht
        · exact h c2 hm2
      · intro h c2 hm
        exact h c2 (List.mem_cons_of_mem c hm)

/-- C2 (amended): `extract` returns `None` exactly when no currency
pattern matches anywhere in the text; but when a pattern does match and
its captured group contains no digit (only commas), the numeric parse
fails and `extract` raises an uncaught `ValueError` instead of
returning `None`. -/
theorem c2_amended_behavior (text : String) :
    (extract text = .ok none ↔ ∀ c, currencyMatches c text = false) ∧
    (extract text = .error () ↔
      ∃ c g, firstMatch text = some (c, g) ∧ stripKommas g = []) := by
  constructor
  · show extractList patternOrder (text.data.map translateDigit) = .ok none ↔ _
    rw [extractList_ok_none_iff, firstMatchList_none_iff]
    constructor
    · intro h c
      have hc := h c (by cases c <;> decide)
      unfold currencyMatches
      rw [hc]
      rfl
    · intro h c hm
      have hc := h c
      unfold currencyMatches at hc
      cases ho : tryPats (text.data.map translateDigit) (patsOf c) with
      | none => rfl
      | some g =>
        rw [ho] at hc
        simp at hc
  · exact extractList_error_iff patternOrder (text.data.map translateDigit)

/-- C2 counterexample: on the text `",تومان"` the toman pattern matches
with capturing group `","`; stripping the comma leaves the empty string,
`float("")` raises `ValueError`, and `extract` propagates the exception
instead of returning `None`. -/
theorem c2_counterexample : extract ",تومان" = .error () := rfl

/-! ### C3: task-id allocation

`task_id = str(int(time.time()))` has whole-second resolution, so two
submissions within the same second share an id.  The development below
proves decimal rendering injective on nonnegative integers, which gives
the amended uniqueness statement across distinct seconds. -/

theorem toDigitsCore_eq_digitsOf (fuel : Nat) :
    ∀ n acc, n < fuel → Nat.toDigitsCore 10 fuel n acc = digitsOf n ++ acc := by
  induction fuel using Nat.strong_induction_on with
  | _ fuel ih =>
    intro n acc hlt
    match fuel, hlt with
    | f + 1, hlt =>
      show Nat.toDigitsCore 10 (f + 1) n acc = digitsOf n ++ acc
      rw [Nat.toDigitsCore]
      by_cases hz : n / 10 = 0
      · simp only [hz, if_true]
        have hD : digitsOf n = [Nat.digitChar (n % 10)] := by
          show Nat.toDigitsCore 10 (n + 1) n [] = _
          rw [Nat.toDigitsCore]
          simp [hz]
        rw [hD]
        rfl
      · simp only [hz, if_false]
        have hn0 : n ≠ 0 := fun hEq => hz (by rw [hEq])
        have hdiv_lt : n / 10 < n := Nat.div_lt_self (Nat.pos_of_ne_zero hn0) (by decide)
        have hn_le : n ≤ f := Nat.lt_succ_iff.mp hlt
        have h1 : Nat.toDigitsCore 10 f (n / 10) (Nat.digitChar (n % 10) :: acc)
            = digitsOf (n / 10) ++ (Nat.digitChar (n % 10) :: acc) :=
          ih f (Nat.lt_succ_self f) (n / 10) _ (Nat.lt_of_lt_of_le hdiv_lt hn_le)
        have h2 : digitsOf n = digitsOf (n / 10) ++ [Nat.digitChar (n % 10)] := by
          show Nat.toDigitsCore 10 (n + 1) n [] = _
          rw [Nat.toDigitsCore]
          simp only [hz, if_false]
          exact ih n hlt (n / 10) [Nat.digitChar (n % 10)] hdiv_lt
        rw [h1, h2, List.append_assoc]
        rfl

theorem decode_append_one (l : List Char) (c : Char) :
    decodeDigits (l ++ [c]) = 10 * decodeDigits l + (c.toNat - '0'.toNat) := by
  unfold decodeDigits
  rw [List.foldl_append]
  rfl

theorem digitChar_val (m : Nat) (h : m < 10) : (Nat.digitChar m).toNat - '0'.toNat = m := by
  interval_cases m <;> rfl

theorem decode_digitsOf (n : Nat) : decodeDigits (digitsOf n) = n := by
  induction n using Nat.strong_induction_on with
  | _ n ih =>
    by_cases hz : n / 10 = 0
    · have hD : digitsOf n = [Nat.digitChar (n % 10)] := by
        show Nat.toDigitsCore 10 (n + 1) n [] = _
        rw [Nat.toDigitsCore]
        simp [hz]
      rw [hD]
      have hlt : n < 10 := (Nat.div_eq_zero_iff (by decide : 0 < 10)).mp hz
      have hval : decodeDigits [Nat.digitChar (n % 10)]
          = (Nat.digitChar (n % 10)).toNat - '0'.toNat := by
        unfold decodeDigits
        simp
      rw [hval, digitChar_val (n % 10) (Nat.mod_lt n (by decide)), Nat.mod_eq_of_lt hlt]
    · have hn0 : n ≠ 0 := fun hEq => hz (by rw [hEq])
      have hdiv_lt : n / 10 < n := Nat.div_lt_self (Nat.pos_of_ne_zero hn0) (by decide)
      have h2 : digitsOf n = digitsOf (n / 10) ++ [Nat.digitChar (n % 10)] := by
        show Nat.toDigitsCore 10 (n + 1) n [] = _
        rw [Nat.toDigitsCore]
        simp only [hz, if_false]
        exact toDigitsCore_eq_digitsOf n (n / 10) [Nat.digitChar (n % 10)] hdiv_lt
      rw [h2, decode_append_one, ih (n / 10) hdiv_lt,
        digitChar_val (n % 10) (Nat.mod_lt n (by decide))]
      exact Nat.div_add_mod n 10

theorem natRepr_inj (a b : Nat) (h : Nat.repr a = Nat.repr b) : a = b := by
  have ha : Nat.repr a = (digitsOf a).asString := rfl
  have hb : Nat.repr b = (digitsOf b).asString := rfl
  rw [ha, hb, List.asString_inj] at h
  have hd := congrArg decodeDigits h
  rwa [decode_digitsOf, decode_digitsOf] at hd

theorem intRepr_nonneg_inj (a b : ℤ) (ha : 0 ≤ a) (hb : 0 ≤ b)
    (h : toString a = toString b) : a = b := by
  obtain ⟨m, rfl⟩ := Int.eq_ofNat_of_zero_le ha
  obtain ⟨k, rfl⟩ := Int.eq_ofNat_of_zero_le hb
  have h2 : Nat.repr m = Nat.repr k := h
  exact congrArg Int.ofNat (natRepr_inj m k h2)

/-- C3 counterexample: two distinct submission times inside the same
whole second (100.1 s and 100.9 s) yield the same taskId `"100"`, and a
second submission with that id overwrites the registry entry the first
one owned (here: a finished `done` entry reverts to `processing`). -/
theorem c3_counterexample :
    ((1001 : ℚ) / 10 ≠ (1009 : ℚ) / 10) ∧
    taskIdOf ((1001 : ℚ) / 10) = taskIdOf ((1009 : ℚ) / 10) ∧
    ((submit (storeInsert emptyStore (taskIdOf ((1001 : ℚ) / 10))
        ⟨"done", some "report.xlsx", none⟩) ((1009 : ℚ) / 10) "x").1)
      (taskIdOf ((1001 : ℚ) / 10)) = some ⟨"processing", none, none⟩ := by
  have h1 : pyInt ((1001 : ℚ) / 10) = 100 := by norm_num [pyInt]
  have h2 : pyInt ((1009 : ℚ) / 10) = 100 := by norm_num [pyInt]
  have ht1 : taskIdOf ((1001 : ℚ) / 10) = "100" := by
    unfold taskIdOf
    rw [h1]
    rfl
  have ht2 : taskIdOf ((1009 : ℚ) / 10) = "100" := by
    unfold taskIdOf
    rw [h2]
    rfl
  refine ⟨by norm_num, ht1.trans ht2.symm, ?_⟩
  show (storeInsert _ (taskIdOf ((1009 : ℚ) / 10)) ⟨"processing", none, none⟩)
    (taskIdOf ((1001 : ℚ) / 10)) = _
  rw [ht1, ht2]
  unfold storeInsert
  simp

/-- C3 (amended): two submit calls receive distinct taskIds exactly when
their submission times fall in distinct whole seconds
(`int(time.time())` differs); within the same whole second the same id
is returned and the later submission overwrites whatever registry entry
sat under that id. -/
theorem c3_amended_ids (t1 t2 : ℚ) (h1 : 0 ≤ t1) (h2 : 0 ≤ t2) :
    (taskIdOf t1 = taskIdOf t2 ↔ pyInt t1 = pyInt t2) ∧
    (pyInt t1 = pyInt t2 →
      ∀ store raw, ((submit store t2 raw).1) (taskIdOf t1)
        = some ⟨"processing", none, none⟩) := by
  have hp1 : 0 ≤ pyInt t1 := by
    unfold pyInt
    rw [if_pos h1]
    exact Int.floor_nonneg.mpr h1
  have hp2 : 0 ≤ pyInt t2 := by
    unfold pyInt
    rw [if_pos h2]
    exact Int.floor_nonneg.mpr h2
  have hIdOf : pyInt t1 = pyInt t2 → taskIdOf t1 = taskIdOf t2 := by
    intro h
    unfold taskIdOf
    rw [h]
  constructor
  · constructor
    · intro h
      exact intRepr_nonneg_inj _ _ hp1 hp2 h
    · exact hIdOf
  · intro h store raw
    show (storeInsert store (taskIdOf t2) ⟨"processing", none, none⟩) (taskIdOf t1) = _
    unfold storeInsert
    rw [if_pos (hIdOf h)]

theorem c3_amended_witness :
    ((0 : ℚ) ≤ 100 ∧ (0 : ℚ) ≤ 205) ∧
    ((taskIdOf 100 = taskIdOf 205 ↔ pyInt 100 = pyInt 205) ∧
      (pyInt 100 = pyInt 205 →
        ∀ store raw, ((submit store 205 raw).1) (taskIdOf 100)
          = some ⟨"processing", none, none⟩)) :=
  ⟨⟨by decide, by decide⟩, c3_amended_ids 100 205 (by decide) (by decide)⟩

end PriceRobot
